/-
Verification of the multimap table layer (src/multimap_table.rs).

Encoded entries are modelled as lists of natural numbers (one per byte).
Accessors that can panic in the source (slice indexing, `unwrap`,
`unreachable!`) are modelled as `Option`-valued functions where `none`
stands for a panic / process abort.  The composite comparator returns
`Except ComparePanic Ordering`, distinguishing the `assert!` failure at
the top of `MultimapKVPair::compare` from the accessor panics.

The user-supplied comparators `K::compare` and `V::compare` are
abstracted as functions `List Nat → List Nat → Ordering`.

The underlying B-tree (`crate::tree_store`) is not part of the sources;
where a claim depends on it, it is modelled from the specification (§6)
as an ordered association structure over a list of encoded keys.
-/
import Mathlib

/-- The four compare-op tags of an encoded entry (multimap_table.rs lines 16-34). -/
inductive MultimapKeyCompareOp where
  | KeyAndValue
  | KeyMinusEpsilon
  | KeyPlusEpsilon
  | KeyOnly
  deriving DecidableEq

/-- `MultimapKeyCompareOp::serialize`: the tag byte written for each op. -/
def MultimapKeyCompareOp.serialize : MultimapKeyCompareOp → Nat
  | .KeyAndValue => 1
  | .KeyMinusEpsilon => 2
  | .KeyPlusEpsilon => 3
  | .KeyOnly => 4

/-- `MultimapKVPairAccessor::compare_op`: reads the tag byte.  `none` models the
`unreachable!` panic on a tag outside {1,2,3,4} and the index panic on an
empty buffer. -/
def MultimapKVPairAccessor.compare_op (data : List Nat) : Option MultimapKeyCompareOp :=
  match data.head? with
  | some 1 => some .KeyAndValue
  | some 2 => some .KeyMinusEpsilon
  | some 3 => some .KeyPlusEpsilon
  | some 4 => some .KeyOnly
  | _ => none

/-- `MultimapKVPairAccessor::key_len`: little-endian u32 at offset 1.  `none`
models the slice/`unwrap` panic when the buffer is shorter than 5 bytes. -/
def MultimapKVPairAccessor.key_len (data : List Nat) : Option Nat :=
  match data with
  | _ :: b0 :: b1 :: b2 :: b3 :: _ =>
    some (b0 + 256 * b1 + 65536 * b2 + 16777216 * b3)
  | _ => none

/-- `MultimapKVPairAccessor::key_bytes`: `data[5 .. 5+key_len]`.  `none` models
the slice-out-of-bounds panic. -/
def MultimapKVPairAccessor.key_bytes (data : List Nat) : Option (List Nat) :=
  match MultimapKVPairAccessor.key_len data with
  | none => none
  | some kl => if 5 + kl ≤ data.length then some ((data.drop 5).take kl) else none

/-- `MultimapKVPairAccessor::value_bytes`: `data[5+key_len ..]`.  `none` models
the slice-out-of-bounds panic. -/
def MultimapKVPairAccessor.value_bytes (data : List Nat) : Option (List Nat) :=
  match MultimapKVPairAccessor.key_len data with
  | none => none
  | some kl => if 5 + kl ≤ data.length then some (data.drop (5 + kl)) else none

/-- Outcome of decoding a raw entry buffer.  The source accessors fail only by
panicking; `malformedEntry` is the recoverable error described by the
specification (§4.1) and is never produced by the code. -/
inductive DecodeResult (α : Type) where
  | ok (a : α)
  | malformedEntry
  | panics
  deriving DecidableEq

/-- Decoding a raw buffer through the three accessors, as the iterators and the
comparator do.  A failing accessor is a panic, not a recoverable error. -/
def decodeEntry (data : List Nat) :
    DecodeResult (MultimapKeyCompareOp × List Nat × List Nat) :=
  match MultimapKVPairAccessor.compare_op data, MultimapKVPairAccessor.key_bytes data,
      MultimapKVPairAccessor.value_bytes data with
  | some op, some kb, some vb => .ok (op, kb, vb)
  | _, _, _ => .panics

/-- `(len as u32).to_le_bytes()`: the length is truncated to 32 bits by the
`as` cast and then written little-endian. -/
def u32_le_bytes (n : Nat) : List Nat :=
  [n % 4294967296 % 256, n % 4294967296 / 256 % 256,
   n % 4294967296 / 65536 % 256, n % 4294967296 / 16777216 % 256]

/-- `MultimapKVPair::new_pair` (lines 131-141): tag 1, key length as
little-endian u32, key bytes, value bytes. -/
def MultimapKVPair.new_pair (kb vb : List Nat) : List Nat :=
  MultimapKeyCompareOp.KeyAndValue.serialize :: (u32_le_bytes kb.length ++ kb ++ vb)

/-- `make_serialized_key_with_op` (lines 182-188): tag of the op, key length as
little-endian u32, key bytes, no value bytes. -/
def make_serialized_key_with_op (kb : List Nat) (op : MultimapKeyCompareOp) : List Nat :=
  op.serialize :: (u32_le_bytes kb.length ++ kb)

/-- A structured view of an encoded entry, used to state properties of the
comparator over well-formed encodings. -/
structure MEntry where
  op : MultimapKeyCompareOp
  key : List Nat
  val : List Nat
  deriving DecidableEq

/-- The byte encoding of a structured entry (sentinels carry `val = []`). -/
def encodeEntry (e : MEntry) : List Nat :=
  e.op.serialize :: (u32_le_bytes e.key.length ++ e.key ++ e.val)

/-- The two distinct abort sites of `MultimapKVPair::compare`: the explicit
`assert!` that at least one operand is a Pair, and the accessor panics. -/
inductive ComparePanic where
  | assertionFailed
  | malformed
  deriving DecidableEq

/-- The branch of `MultimapKVPair::compare` taken once `data1` is known to be
the Pair operand: dispatch on the query operand's op (lines 92-117). -/
def comparePairQuery (Kcmp Vcmp : List Nat → List Nat → Ordering)
    (d1 d2 : List Nat) : Except ComparePanic Ordering :=
  match MultimapKVPairAccessor.compare_op d2 with
  | none => .error .malformed
  | some op2 =>
    match MultimapKVPairAccessor.key_bytes d1 with
    | none => .error .malformed
    | some k1 =>
      match MultimapKVPairAccessor.key_bytes d2 with
      | none => .error .malformed
      | some k2 =>
        match op2 with
        | .KeyAndValue =>
          match Kcmp k1 k2 with
          | .lt => .ok .lt
          | .gt => .ok .gt
          | .eq =>
            match MultimapKVPairAccessor.value_bytes d1,
                MultimapKVPairAccessor.value_bytes d2 with
            | some v1, some v2 => .ok (Vcmp v1 v2)
            | _, _ => .error .malformed
        | .KeyMinusEpsilon =>
          .ok (match Kcmp k1 k2 with | .eq => .gt | o => o)
        | .KeyPlusEpsilon =>
          .ok (match Kcmp k1 k2 with | .eq => .lt | o => o)
        | .KeyOnly => .ok (Kcmp k1 k2)

/-- `MultimapKVPair::compare` (lines 82-119): asserts that at least one operand
is a Pair; if the first operand is not the Pair, compares swapped and reverses
the result. -/
def MultimapKVPair.compare (Kcmp Vcmp : List Nat → List Nat → Ordering)
    (d1 d2 : List Nat) : Except ComparePanic Ordering :=
  match MultimapKVPairAccessor.compare_op d1, MultimapKVPairAccessor.compare_op d2 with
  | none, _ => .error .malformed
  | some _, none => .error .malformed
  | some op1, some op2 =>
    if op1 ≠ .KeyAndValue ∧ op2 ≠ .KeyAndValue then .error .assertionFailed
    else if op1 ≠ .KeyAndValue then
      (comparePairQuery Kcmp Vcmp d2 d1).map Ordering.swap
    else comparePairQuery Kcmp Vcmp d1 d2

/-- `std::collections::Bound` restricted to encoded byte keys. -/
inductive Bound where
  | Included (key : List Nat)
  | Excluded (key : List Nat)
  | Unbounded
  deriving DecidableEq

/-- `make_inclusive_query_range` (lines 192-220): maps the user bounds to
sentinel-encoded inclusive bounds, `none` for `Unbounded`. -/
def make_inclusive_query_range (start stop : Bound) :
    Option (List Nat) × Option (List Nat) :=
  (match start with
   | .Included key => some (make_serialized_key_with_op key .KeyMinusEpsilon)
   | .Excluded key => some (make_serialized_key_with_op key .KeyPlusEpsilon)
   | .Unbounded => none,
   match stop with
   | .Included key => some (make_serialized_key_with_op key .KeyPlusEpsilon)
   | .Excluded key => some (make_serialized_key_with_op key .KeyMinusEpsilon)
   | .Unbounded => none)

/-- `make_bound` (lines 222-230): wraps a built sentinel as an inclusive bound. -/
def make_bound : Option (List Nat) → Bound
  | some kv => .Included kv
  | none => .Unbounded

/-- The pair of bounds `MultimapTable::range` passes to the B-tree
(lines 398-402): `make_bound` applied to both components. -/
def MultimapTable.rangeBounds (start stop : Bound) : Bound × Bound :=
  (make_bound (make_inclusive_query_range start stop).1,
   make_bound (make_inclusive_query_range start stop).2)

/-- Modelled from the spec: the underlying B-tree primitive (§6) is an ordered
map over opaque byte-string keys with a caller-supplied comparator; the
multimap layer stores the empty value for every entry, so the tree state is a
list of encoded keys kept in ascending comparator order.  `insert` replaces an
entry comparing equal and reports whether a prior entry existed; a comparator
panic (`.error`) aborts, modelled as `none`. -/
def btreeInsert (cmp : List Nat → List Nat → Except ComparePanic Ordering)
    (key : List Nat) : List (List Nat) → Option (List (List Nat) × Bool)
  | [] => some ([key], false)
  | e :: rest =>
    match cmp e key with
    | .error _ => none
    | .ok .lt =>
      match btreeInsert cmp key rest with
      | none => none
      | some (rest1, prior) => some (e :: rest1, prior)
    | .ok .eq => some (key :: rest, true)
    | .ok .gt => some (key :: e :: rest, false)

/-- Modelled from the spec: `remove_retain_uncommitted(key) → prior_value_opt`
(§6) removes one entry comparing equal to the query, if any, and reports
whether one was found.  The snapshot list passed around separately stays
readable, which is what "retain uncommitted" provides. -/
def btreeRemoveFirst (cmp : List Nat → List Nat → Except ComparePanic Ordering)
    (q : List Nat) : List (List Nat) → Option (List (List Nat) × Bool)
  | [] => some ([], false)
  | e :: rest =>
    match cmp e q with
    | .error _ => none
    | .ok .eq => some (rest, true)
    | .ok _ =>
      match btreeRemoveFirst cmp q rest with
      | none => none
      | some (rest1, found) => some (e :: rest1, found)

/-- The retry loop of `MultimapTable::remove_all` (lines 364-369): repeatedly
remove a match for the KeyOnly sentinel until none is found.  The loop is
modelled with explicit fuel; one entry disappears per successful iteration, so
`length + 1` units of fuel always suffice. -/
def removeLoop (cmp : List Nat → List Nat → Except ComparePanic Ordering)
    (q : List Nat) : Nat → List (List Nat) → Option (List (List Nat))
  | 0, _ => none
  | fuel + 1, t =>
    match btreeRemoveFirst cmp q t with
    | none => none
    | some (t1, true) => removeLoop cmp q fuel t1
    | some (t1, false) => some t1

/-- Modelled from the spec: `range(inclusive_lo, inclusive_hi)` (§6) yields the
entries lying between the two bounds inclusively under the comparator. -/
def rangeScan (cmp : List Nat → List Nat → Except ComparePanic Ordering)
    (lo hi : List Nat) : List (List Nat) → Option (List (List Nat))
  | [] => some []
  | e :: rest =>
    match cmp e lo, cmp e hi with
    | .ok c1, .ok c2 =>
      match rangeScan cmp lo hi rest with
      | none => none
      | some tail =>
        some (if c1 ≠ Ordering.lt ∧ c2 ≠ Ordering.gt then e :: tail else tail)
    | _, _ => none

/-- `MultimapValueIter::next` applied until exhaustion: each entry's value
bytes are decoded (lines 244-255); an accessor panic aborts. -/
def decodeValues : List (List Nat) → Option (List (List Nat))
  | [] => some []
  | e :: rest =>
    match MultimapKVPairAccessor.value_bytes e, decodeValues rest with
    | some v, some vs => some (v :: vs)
    | _, _ => none

/-- `MultimapTable::insert` (lines 335-341): encode the pair, insert it with
the empty value, and report whether a prior entry was present. -/
def MultimapTable.insert (Kcmp Vcmp : List Nat → List Nat → Ordering)
    (kb vb : List Nat) (t : List (List Nat)) : Option (List (List Nat) × Bool) :=
  btreeInsert (MultimapKVPair.compare Kcmp Vcmp) (MultimapKVPair.new_pair kb vb) t

/-- `MultimapTable::len` (lines 408-410): the number of stored entries. -/
def MultimapTable.len (t : List (List Nat)) : Nat := t.length

/-- `MultimapTable::get` (lines 385-391): scan the inclusive sentinel range
`[Minus(k), Plus(k)]` and decode each entry's value bytes. -/
def MultimapTable.get (Kcmp Vcmp : List Nat → List Nat → Ordering)
    (kb : List Nat) (t : List (List Nat)) : Option (List (List Nat)) :=
  match rangeScan (MultimapKVPair.compare Kcmp Vcmp)
      (make_serialized_key_with_op kb .KeyMinusEpsilon)
      (make_serialized_key_with_op kb .KeyPlusEpsilon) t with
  | none => none
  | some entries => decodeValues entries

/-- `MultimapTable::remove_all` (lines 357-378): capture a snapshot of the
tree, repeatedly remove matches of the KeyOnly sentinel, then return the
values decoded from the snapshot scanned over `[Minus(k), Plus(k)]`.  The
result is the mutated tree together with the contents of the returned
iterator. -/
def MultimapTable.remove_all (Kcmp Vcmp : List Nat → List Nat → Ordering)
    (kb : List Nat) (t : List (List Nat)) :
    Option (List (List Nat) × List (List Nat)) :=
  match removeLoop (MultimapKVPair.compare Kcmp Vcmp)
      (make_serialized_key_with_op kb .KeyOnly) (t.length + 1) t with
  | none => none
  | some t1 =>
    match rangeScan (MultimapKVPair.compare Kcmp Vcmp)
        (make_serialized_key_with_op kb .KeyMinusEpsilon)
        (make_serialized_key_with_op kb .KeyPlusEpsilon) t with
    | none => none
    | some entries =>
      match decodeValues entries with
      | none => none
      | some vals => some (t1, vals)

/-- A concrete total order on byte strings (plain lexicographic comparison),
used to exercise the theorems below on explicit inputs. -/
def byteCompare : List Nat → List Nat → Ordering
  | [], [] => .eq
  | [], _ :: _ => .lt
  | _ :: _, [] => .gt
  | a :: as, b :: bs =>
    if a < b then .lt else if b < a then .gt else byteCompare as bs

/-- The laws the specification (§3) requires of a user comparator: it is a
total order on serialized forms. -/
structure LawfulCmp (cmp : List Nat → List Nat → Ordering) : Prop where
  symm : ∀ x y, cmp y x = (cmp x y).swap
  lt_trans : ∀ x y z, cmp x y = .lt → cmp y z = .lt → cmp x z = .lt
  eq_congr : ∀ x y z, cmp x y = .eq → cmp x z = cmp y z

/-- The ordering the comparator computes once the left operand is known to be
a Pair with key `k` and value `v`, stated over structured entries. -/
def pairQueryCmp (Kcmp Vcmp : List Nat → List Nat → Ordering)
    (k v : List Nat) (b : MEntry) : Ordering :=
  match b.op with
  | .KeyAndValue =>
    match Kcmp k b.key with
    | .lt => .lt
    | .eq => Vcmp v b.val
    | .gt => .gt
  | .KeyMinusEpsilon => match Kcmp k b.key with | .eq => .gt | o => o
  | .KeyPlusEpsilon => match Kcmp k b.key with | .eq => .lt | o => o
  | .KeyOnly => Kcmp k b.key

/-- The comparator's result over structured entries, assuming at least one of
the two is a Pair. -/
def entryCmp (Kcmp Vcmp : List Nat → List Nat → Ordering) (a b : MEntry) : Ordering :=
  if a.op = .KeyAndValue then pairQueryCmp Kcmp Vcmp a.key a.val b
  else (pairQueryCmp Kcmp Vcmp b.key b.val a).swap

/-- Whether a comparator outcome is exactly `ok eq`, i.e. a match for the
removal loop's KeyOnly query. -/
def isEqOk : Except ComparePanic Ordering → Bool
  | .ok .eq => true
  | _ => false

/-- Whether the comparator outcomes against the lower and upper bound place an
entry inside the inclusive range of `rangeScan`. -/
def inRangeOk : Except ComparePanic Ordering → Except ComparePanic Ordering → Bool
  | .ok c1, .ok c2 => decide (c1 ≠ Ordering.lt ∧ c2 ≠ Ordering.gt)
  | _, _ => false

lemma encodeEntry_cons (e : MEntry) :
    encodeEntry e = e.op.serialize :: e.key.length % 4294967296 % 256 ::
      e.key.length % 4294967296 / 256 % 256 ::
      e.key.length % 4294967296 / 65536 % 256 ::
      e.key.length % 4294967296 / 16777216 % 256 :: (e.key ++ e.val) := by
  simp [encodeEntry, u32_le_bytes]

lemma encodeEntry_length (e : MEntry) :
    (encodeEntry e).length = 5 + (e.key.length + e.val.length) := by
  rw [encodeEntry_cons]
  simp
  omega

lemma compare_op_encode (e : MEntry) :
    MultimapKVPairAccessor.compare_op (encodeEntry e) = some e.op := by
  obtain ⟨op, key, val⟩ := e
  cases op <;> rfl

lemma key_len_encode (e : MEntry) :
    MultimapKVPairAccessor.key_len (encodeEntry e) = some (e.key.length % 4294967296) := by
  rw [encodeEntry_cons]
  simp [MultimapKVPairAccessor.key_len]
  omega

lemma drop_five (s b0 b1 b2 b3 : Nat) (tail : List Nat) :
    List.drop 5 (s :: b0 :: b1 :: b2 :: b3 :: tail) = tail := rfl

lemma key_bytes_encode (e : MEntry) (h : e.key.length < 4294967296) :
    MultimapKVPairAccessor.key_bytes (encodeEntry e) = some e.key := by
  have hlen : 5 + e.key.length ≤ (encodeEntry e).length := by
    rw [encodeEntry_length]; omega
  simp only [MultimapKVPairAccessor.key_bytes, key_len_encode, Nat.mod_eq_of_lt h,
    if_pos hlen]
  rw [encodeEntry_cons, drop_five, List.take_left]

lemma value_bytes_encode (e : MEntry) (h : e.key.length < 4294967296) :
    MultimapKVPairAccessor.value_bytes (encodeEntry e) = some e.val := by
  have hlen : 5 + e.key.length ≤ (encodeEntry e).length := by
    rw [encodeEntry_length]; omega
  simp only [MultimapKVPairAccessor.value_bytes, key_len_encode, Nat.mod_eq_of_lt h,
    if_pos hlen]
  rw [← List.drop_drop, encodeEntry_cons, drop_five, List.drop_left]

lemma new_pair_encode (kb vb : List Nat) :
    MultimapKVPair.new_pair kb vb = encodeEntry ⟨.KeyAndValue, kb, vb⟩ := rfl

lemma mswo_encode (kb : List Nat) (op : MultimapKeyCompareOp) :
    make_serialized_key_with_op kb op = encodeEntry ⟨op, kb, []⟩ := by
  simp [make_serialized_key_with_op, encodeEntry]

lemma cq_encode (Kcmp Vcmp : List Nat → List Nat → Ordering) (a b : MEntry)
    (ha : a.key.length < 4294967296) (hb : b.key.length < 4294967296) :
    comparePairQuery Kcmp Vcmp (encodeEntry a) (encodeEntry b) =
      .ok (pairQueryCmp Kcmp Vcmp a.key a.val b) := by
  obtain ⟨bop, bkey, bval⟩ := b
  simp only [comparePairQuery, compare_op_encode, key_bytes_encode _ ha,
    key_bytes_encode _ hb]
  cases bop with
  | KeyAndValue =>
    simp only [pairQueryCmp]
    cases hK : Kcmp a.key bkey <;>
      simp [hK, value_bytes_encode _ ha, value_bytes_encode _ hb]
  | KeyMinusEpsilon => simp [pairQueryCmp]
  | KeyPlusEpsilon => simp [pairQueryCmp]
  | KeyOnly => simp [pairQueryCmp]

lemma compare_encode (Kcmp Vcmp : List Nat → List Nat → Ordering) (a b : MEntry)
    (ha : a.key.length < 4294967296) (hb : b.key.length < 4294967296)
    (dom : a.op = .KeyAndValue ∨ b.op = .KeyAndValue) :
    MultimapKVPair.compare Kcmp Vcmp (encodeEntry a) (encodeEntry b) =
      .ok (entryCmp Kcmp Vcmp a b) := by
  simp only [MultimapKVPair.compare, compare_op_encode]
  by_cases hA : a.op = .KeyAndValue
  · have hcond : ¬ (a.op ≠ .KeyAndValue ∧ b.op ≠ .KeyAndValue) := by tauto
    rw [if_neg hcond, if_neg (not_not.mpr hA), cq_encode Kcmp Vcmp a b ha hb]
    simp [entryCmp, hA]
  · have hB : b.op = .KeyAndValue := dom.resolve_left hA
    have hcond : ¬ (a.op ≠ .KeyAndValue ∧ b.op ≠ .KeyAndValue) := by tauto
    rw [if_neg hcond, if_pos hA, cq_encode Kcmp Vcmp b a hb ha]
    simp [entryCmp, hA, Except.map]

lemma compare_pair_sentinel (Kcmp Vcmp : List Nat → List Nat → Ordering)
    (ke ve kb : List Nat) (op : MultimapKeyCompareOp)
    (hke : ke.length < 4294967296) (hkb : kb.length < 4294967296) :
    MultimapKVPair.compare Kcmp Vcmp (MultimapKVPair.new_pair ke ve)
      (make_serialized_key_with_op kb op) =
      .ok (pairQueryCmp Kcmp Vcmp ke ve ⟨op, kb, []⟩) := by
  rw [new_pair_encode, mswo_encode,
    compare_encode Kcmp Vcmp ⟨.KeyAndValue, ke, ve⟩ ⟨op, kb, []⟩ hke hkb (Or.inl rfl)]
  simp [entryCmp]

/-- C1: a Pair with key bytes `kb` compares Greater against the KeyMinusEpsilon
sentinel of `kb`, Less against the KeyPlusEpsilon sentinel, Equal against the
KeyOnly sentinel; against a sentinel of any kind over key bytes `kb2` that do
not compare equal to `kb`, the result is exactly `Kcmp kb kb2`. -/
theorem pair_sentinel_ordering (Kcmp Vcmp : List Nat → List Nat → Ordering)
    (kb vb kb2 : List Nat)
    (hkb : kb.length < 4294967296) (hkb2 : kb2.length < 4294967296)
    (hrefl : Kcmp kb kb = .eq) (hne : Kcmp kb kb2 ≠ .eq) :
    MultimapKVPair.compare Kcmp Vcmp (MultimapKVPair.new_pair kb vb)
      (make_serialized_key_with_op kb .KeyMinusEpsilon) = .ok .gt ∧
    MultimapKVPair.compare Kcmp Vcmp (MultimapKVPair.new_pair kb vb)
      (make_serialized_key_with_op kb .KeyPlusEpsilon) = .ok .lt ∧
    MultimapKVPair.compare Kcmp Vcmp (MultimapKVPair.new_pair kb vb)
      (make_serialized_key_with_op kb .KeyOnly) = .ok .eq ∧
    ∀ op, op ≠ MultimapKeyCompareOp.KeyAndValue →
      MultimapKVPair.compare Kcmp Vcmp (MultimapKVPair.new_pair kb vb)
        (make_serialized_key_with_op kb2 op) = .ok (Kcmp kb kb2) := by
  refine ⟨?_, ?_, ?_, ?_⟩
  · rw [compare_pair_sentinel Kcmp Vcmp kb vb kb .KeyMinusEpsilon hkb hkb]
    simp [pairQueryCmp, hrefl]
  · rw [compare_pair_sentinel Kcmp Vcmp kb vb kb .KeyPlusEpsilon hkb hkb]
    simp [pairQueryCmp, hrefl]
  · rw [compare_pair_sentinel Kcmp Vcmp kb vb kb .KeyOnly hkb hkb]
    simp [pairQueryCmp, hrefl]
  · intro op hop
    rw [compare_pair_sentinel Kcmp Vcmp kb vb kb2 op hkb hkb2]
    cases op with
    | KeyAndValue => exact absurd rfl hop
    | KeyMinusEpsilon => cases hK : Kcmp kb kb2 <;> simp_all [pairQueryCmp]
    | KeyPlusEpsilon => cases hK : Kcmp kb kb2 <;> simp_all [pairQueryCmp]
    | KeyOnly => simp [pairQueryCmp]

theorem pair_sentinel_ordering_witness :
    byteCompare [0] [0] = .eq ∧ byteCompare [0] [1] ≠ .eq ∧
    (MultimapKVPair.compare byteCompare byteCompare (MultimapKVPair.new_pair [0] [5])
      (make_serialized_key_with_op [0] .KeyMinusEpsilon) = .ok .gt ∧
     MultimapKVPair.compare byteCompare byteCompare (MultimapKVPair.new_pair [0] [5])
      (make_serialized_key_with_op [0] .KeyPlusEpsilon) = .ok .lt ∧
     MultimapKVPair.compare byteCompare byteCompare (MultimapKVPair.new_pair [0] [5])
      (make_serialized_key_with_op [0] .KeyOnly) = .ok .eq ∧
     ∀ op, op ≠ MultimapKeyCompareOp.KeyAndValue →
      MultimapKVPair.compare byteCompare byteCompare (MultimapKVPair.new_pair [0] [5])
        (make_serialized_key_with_op [1] op) = .ok (byteCompare [0] [1])) :=
  ⟨by decide, by decide,
   pair_sentinel_ordering byteCompare byteCompare [0] [5] [1]
     (by decide) (by decide) (by decide) (by decide)⟩

/-- C2: two Pairs compare lexicographically on (key, value): the key comparison
when it is not Equal, otherwise the value comparison. -/
theorem pair_pair_lexicographic (Kcmp Vcmp : List Nat → List Nat → Ordering)
    (kb1 vb1 kb2 vb2 : List Nat)
    (h1 : kb1.length < 4294967296) (h2 : kb2.length < 4294967296) :
    MultimapKVPair.compare Kcmp Vcmp (MultimapKVPair.new_pair kb1 vb1)
      (MultimapKVPair.new_pair kb2 vb2) =
      .ok (match Kcmp kb1 kb2 with
           | .eq => Vcmp vb1 vb2
           | o => o) := by
  rw [new_pair_encode, new_pair_encode,
    compare_encode Kcmp Vcmp ⟨.KeyAndValue, kb1, vb1⟩ ⟨.KeyAndValue, kb2, vb2⟩ h1 h2
      (Or.inl rfl)]
  simp only [entryCmp, pairQueryCmp, if_pos]
  cases hK : Kcmp kb1 kb2 <;> simp

theorem pair_pair_lexicographic_witness :
    MultimapKVPair.compare byteCompare byteCompare (MultimapKVPair.new_pair [3] [7])
      (MultimapKVPair.new_pair [3] [9]) =
      .ok (match byteCompare [3] [3] with
           | .eq => byteCompare [7] [9]
           | o => o) :=
  pair_pair_lexicographic byteCompare byteCompare [3] [7] [3] [9] (by decide) (by decide)

/-- C7: the pair constructor writes tag 1, the key length little-endian, the
key bytes, then the value bytes; the accessors invert this, and sentinel
encodings have empty value bytes. -/
theorem encode_roundtrip (kb vb : List Nat) (h : kb.length < 4294967296) :
    MultimapKVPair.new_pair kb vb = 1 :: (u32_le_bytes kb.length ++ kb ++ vb) ∧
    MultimapKVPairAccessor.compare_op (MultimapKVPair.new_pair kb vb) =
      some .KeyAndValue ∧
    MultimapKVPairAccessor.key_bytes (MultimapKVPair.new_pair kb vb) = some kb ∧
    MultimapKVPairAccessor.value_bytes (MultimapKVPair.new_pair kb vb) = some vb ∧
    ∀ op, MultimapKVPairAccessor.value_bytes (make_serialized_key_with_op kb op) =
      some [] := by
  refine ⟨rfl, ?_, ?_, ?_, ?_⟩
  · rw [new_pair_encode, compare_op_encode]
  · rw [new_pair_encode]
    exact key_bytes_encode ⟨.KeyAndValue, kb, vb⟩ h
  · rw [new_pair_encode]
    exact value_bytes_encode ⟨.KeyAndValue, kb, vb⟩ h
  · intro op
    rw [mswo_encode]
    exact value_bytes_encode ⟨op, kb, []⟩ h

theorem encode_roundtrip_witness :
    ([2, 3] : List Nat).length < 4294967296 ∧
    (MultimapKVPair.new_pair [2, 3] [4] = 1 :: (u32_le_bytes 2 ++ [2, 3] ++ [4]) ∧
     MultimapKVPairAccessor.compare_op (MultimapKVPair.new_pair [2, 3] [4]) =
       some .KeyAndValue ∧
     MultimapKVPairAccessor.key_bytes (MultimapKVPair.new_pair [2, 3] [4]) = some [2, 3] ∧
     MultimapKVPairAccessor.value_bytes (MultimapKVPair.new_pair [2, 3] [4]) = some [4] ∧
     ∀ op, MultimapKVPairAccessor.value_bytes (make_serialized_key_with_op [2, 3] op) =
       some []) :=
  ⟨by decide, encode_roundtrip [2, 3] [4] (by decide)⟩

lemma key_bytes_encode_trunc (e : MEntry) :
    MultimapKVPairAccessor.key_bytes (encodeEntry e) =
      some ((e.key ++ e.val).take (e.key.length % 4294967296)) := by
  have hlen : 5 + e.key.length % 4294967296 ≤ (encodeEntry e).length := by
    rw [encodeEntry_length]
    have := Nat.mod_le e.key.length 4294967296
    omega
  simp only [MultimapKVPairAccessor.key_bytes, key_len_encode, if_pos hlen]
  rw [encodeEntry_cons, drop_five]

lemma value_bytes_encode_trunc (e : MEntry) :
    MultimapKVPairAccessor.value_bytes (encodeEntry e) =
      some ((e.key ++ e.val).drop (e.key.length % 4294967296)) := by
  have hlen : 5 + e.key.length % 4294967296 ≤ (encodeEntry e).length := by
    rw [encodeEntry_length]
    have := Nat.mod_le e.key.length 4294967296
    omega
  simp only [MultimapKVPairAccessor.value_bytes, key_len_encode, if_pos hlen]
  rw [← List.drop_drop, encodeEntry_cons, drop_five]

/-- C10: when the key's byte length is at least 2^32, the encoders store only
the low 32 bits of the length, the accessors return a truncated key slice
instead of the original key bytes, and no failure is reported anywhere. -/
theorem key_length_truncation (kb vb : List Nat) (h : 4294967296 ≤ kb.length) :
    MultimapKVPairAccessor.key_len (MultimapKVPair.new_pair kb vb) =
      some (kb.length % 4294967296) ∧
    kb.length % 4294967296 ≠ kb.length ∧
    (∃ tr, MultimapKVPairAccessor.key_bytes (MultimapKVPair.new_pair kb vb) = some tr ∧
      tr ≠ kb) ∧
    (∀ op, ∃ tr,
      MultimapKVPairAccessor.key_bytes (make_serialized_key_with_op kb op) = some tr ∧
      tr ≠ kb) ∧
    decodeEntry (MultimapKVPair.new_pair kb vb) ≠ .panics ∧
    decodeEntry (MultimapKVPair.new_pair kb vb) ≠ .malformedEntry := by
  have hmodlt : kb.length % 4294967296 < kb.length :=
    lt_of_lt_of_le (Nat.mod_lt _ (by omega)) h
  have htrunclen : ∀ tail : List Nat,
      ((kb ++ tail).take (kb.length % 4294967296)).length = kb.length % 4294967296 := by
    intro tail
    rw [List.length_take, List.length_append]
    omega
  refine ⟨?_, by omega, ?_, ?_, ?_, ?_⟩
  · rw [new_pair_encode, key_len_encode]
  · refine ⟨(kb ++ vb).take (kb.length % 4294967296), ?_, ?_⟩
    · rw [new_pair_encode, key_bytes_encode_trunc]
    · intro heq
      have := htrunclen vb
      rw [heq] at this
      omega
  · intro op
    refine ⟨(kb ++ []).take (kb.length % 4294967296), ?_, ?_⟩
    · rw [mswo_encode, key_bytes_encode_trunc]
    · intro heq
      have := htrunclen []
      rw [heq] at this
      omega
  · rw [new_pair_encode]
    unfold decodeEntry
    rw [compare_op_encode, key_bytes_encode_trunc, value_bytes_encode_trunc]
    simp
  · rw [new_pair_encode]
    unfold decodeEntry
    rw [compare_op_encode, key_bytes_encode_trunc, value_bytes_encode_trunc]
    simp

theorem key_length_truncation_witness :
    4294967296 ≤ (List.replicate 4294967296 (0 : Nat)).length ∧
    (MultimapKVPairAccessor.key_len
        (MultimapKVPair.new_pair (List.replicate 4294967296 (0 : Nat)) []) =
      some ((List.replicate 4294967296 (0 : Nat)).length % 4294967296) ∧
     (List.replicate 4294967296 (0 : Nat)).length % 4294967296 ≠
       (List.replicate 4294967296 (0 : Nat)).length ∧
     (∃ tr, MultimapKVPairAccessor.key_bytes
        (MultimapKVPair.new_pair (List.replicate 4294967296 (0 : Nat)) []) = some tr ∧
       tr ≠ List.replicate 4294967296 (0 : Nat)) ∧
     (∀ op, ∃ tr, MultimapKVPairAccessor.key_bytes
        (make_serialized_key_with_op (List.replicate 4294967296 (0 : Nat)) op) =
          some tr ∧ tr ≠ List.replicate 4294967296 (0 : Nat)) ∧
     decodeEntry (MultimapKVPair.new_pair (List.replicate 4294967296 (0 : Nat)) []) ≠
       .panics ∧
     decodeEntry (MultimapKVPair.new_pair (List.replicate 4294967296 (0 : Nat)) []) ≠
       .malformedEntry) :=
  ⟨by rw [List.length_replicate],
   key_length_truncation (List.replicate 4294967296 (0 : Nat)) []
     (by rw [List.length_replicate])⟩

/-- C5: the range builder maps Included/Excluded/Unbounded user bounds to the
sentinels of the table in §4.3, and the bounds handed to the B-tree are always
inclusive (`Included` or `Unbounded`, never `Excluded`). -/
theorem range_builder_bounds (k : List Nat) :
    (∀ e, (make_inclusive_query_range (.Included k) e).1 =
        some (make_serialized_key_with_op k .KeyMinusEpsilon)) ∧
    (∀ e, (make_inclusive_query_range (.Excluded k) e).1 =
        some (make_serialized_key_with_op k .KeyPlusEpsilon)) ∧
    (∀ e, (make_inclusive_query_range .Unbounded e).1 = none) ∧
    (∀ s, (make_inclusive_query_range s (.Included k)).2 =
        some (make_serialized_key_with_op k .KeyPlusEpsilon)) ∧
    (∀ s, (make_inclusive_query_range s (.Excluded k)).2 =
        some (make_serialized_key_with_op k .KeyMinusEpsilon)) ∧
    (∀ s, (make_inclusive_query_range s .Unbounded).2 = none) ∧
    (∀ kv, make_bound (some kv) = .Included kv) ∧
    make_bound none = .Unbounded ∧
    (∀ s e k0, (MultimapTable.rangeBounds s e).1 ≠ .Excluded k0 ∧
      (MultimapTable.rangeBounds s e).2 ≠ .Excluded k0) := by
  refine ⟨fun e => rfl, fun e => rfl, fun e => rfl, fun s => rfl, fun s => rfl,
    fun s => rfl, fun kv => rfl, rfl, ?_⟩
  intro s e k0
  cases s <;> cases e <;> simp [MultimapTable.rangeBounds, make_inclusive_query_range,
    make_bound]

lemma key_len_none_of_short (data : List Nat) (h : data.length < 5) :
    MultimapKVPairAccessor.key_len data = none := by
  rcases data with _ | ⟨a, _ | ⟨b, _ | ⟨c, _ | ⟨d, _ | ⟨e, rest⟩⟩⟩⟩⟩ <;>
    first
      | rfl
      | (exfalso; simp only [List.length_cons] at h; omega)

lemma decodeEntry_panics_of (data : List Nat)
    (h : MultimapKVPairAccessor.compare_op data = none ∨
      MultimapKVPairAccessor.key_bytes data = none) :
    decodeEntry data = .panics := by
  cases hco : MultimapKVPairAccessor.compare_op data <;>
    cases hkb : MultimapKVPairAccessor.key_bytes data <;>
      cases hvb : MultimapKVPairAccessor.value_bytes data <;>
        simp_all [decodeEntry]

/-- C6 counterexample: on the buffer `[1]` (length 1 < 5) decoding does not
produce the recoverable MalformedEntry error the claim describes — the
accessors panic instead. -/
theorem decode_malformed_counterexample :
    ([1] : List Nat).length < 5 ∧ decodeEntry [1] ≠ .malformedEntry ∧
    decodeEntry [1] = .panics := by decide

/-- C6 amended: for every buffer shorter than 5 bytes, or shorter than
5 + key_len, or whose tag byte is outside {1,2,3,4}, decoding panics (slice
out of bounds, failed `unwrap`, or `unreachable!`) rather than returning a
recoverable error. -/
theorem decode_malformed_panics (data : List Nat)
    (h : data.length < 5 ∨
      (∃ kl, MultimapKVPairAccessor.key_len data = some kl ∧ data.length < 5 + kl) ∨
      MultimapKVPairAccessor.compare_op data = none) :
    decodeEntry data = .panics := by
  apply decodeEntry_panics_of
  rcases h with h | ⟨kl, hkl, hlt⟩ | h
  · right
    rw [MultimapKVPairAccessor.key_bytes, key_len_none_of_short data h]
  · right
    rw [MultimapKVPairAccessor.key_bytes, hkl]
    simp only [if_neg (by omega : ¬ 5 + kl ≤ data.length)]
  · left
    exact h

theorem decode_malformed_panics_witness :
    (([2] : List Nat).length < 5 ∨
      (∃ kl, MultimapKVPairAccessor.key_len [2] = some kl ∧
        ([2] : List Nat).length < 5 + kl) ∨
      MultimapKVPairAccessor.compare_op [2] = none) ∧
    decodeEntry [2] = .panics :=
  ⟨Or.inl (by decide), decode_malformed_panics [2] (Or.inl (by decide))⟩

lemma cq_not_assertion (Kcmp Vcmp : List Nat → List Nat → Ordering)
    (d1 d2 : List Nat) :
    comparePairQuery Kcmp Vcmp d1 d2 ≠ .error .assertionFailed := by
  unfold comparePairQuery
  cases MultimapKVPairAccessor.compare_op d2 with
  | none => simp
  | some op2 =>
    cases MultimapKVPairAccessor.key_bytes d1 with
    | none => simp
    | some k1 =>
      cases MultimapKVPairAccessor.key_bytes d2 with
      | none => simp
      | some k2 =>
        cases op2 <;> simp
        cases Kcmp k1 k2 <;> simp
        cases MultimapKVPairAccessor.value_bytes d1 <;>
          cases MultimapKVPairAccessor.value_bytes d2 <;> simp

/-- C4: invoked on two operands whose tags are both in {2,3,4}, the comparator
aborts through its assertion (no Ordering, no recoverable error); when at
least one operand carries tag 1, that assertion never fires. -/
theorem comparator_assertion (Kcmp Vcmp : List Nat → List Nat → Ordering) :
    (∀ d1 d2 t1 t2, d1.head? = some t1 → d2.head? = some t2 →
      (t1 = 2 ∨ t1 = 3 ∨ t1 = 4) → (t2 = 2 ∨ t2 = 3 ∨ t2 = 4) →
      MultimapKVPair.compare Kcmp Vcmp d1 d2 = .error .assertionFailed) ∧
    (∀ d1 d2, d1.head? = some 1 ∨ d2.head? = some 1 →
      MultimapKVPair.compare Kcmp Vcmp d1 d2 ≠ .error .assertionFailed) := by
  constructor
  · intro d1 d2 t1 t2 h1 h2 ht1 ht2
    rcases ht1 with rfl | rfl | rfl <;> rcases ht2 with rfl | rfl | rfl <;>
      simp [MultimapKVPair.compare, MultimapKVPairAccessor.compare_op, h1, h2]
  · intro d1 d2 hone
    cases hco1 : MultimapKVPairAccessor.compare_op d1 with
    | none =>
      simp [MultimapKVPair.compare, hco1]
    | some op1 =>
      cases hco2 : MultimapKVPairAccessor.compare_op d2 with
      | none =>
        simp [MultimapKVPair.compare, hco1, hco2]
      | some op2 =>
        have hKV : op1 = .KeyAndValue ∨ op2 = .KeyAndValue := by
          rcases hone with h | h
          · left
            rw [MultimapKVPairAccessor.compare_op, h] at hco1
            exact (Option.some_inj.mp hco1).symm
          · right
            rw [MultimapKVPairAccessor.compare_op, h] at hco2
            exact (Option.some_inj.mp hco2).symm
        have hcond : ¬ (op1 ≠ .KeyAndValue ∧ op2 ≠ .KeyAndValue) := by tauto
        simp only [MultimapKVPair.compare, hco1, hco2, if_neg hcond]
        by_cases hA : op1 = .KeyAndValue
        · rw [if_neg (not_not.mpr hA)]
          exact cq_not_assertion Kcmp Vcmp d1 d2
        · rw [if_pos hA]
          cases hq : comparePairQuery Kcmp Vcmp d2 d1 with
          | ok o => simp [Except.map]
          | error c =>
            have hne := cq_not_assertion Kcmp Vcmp d2 d1
            rw [hq] at hne
            simpa [Except.map] using hne

theorem comparator_assertion_witness :
    MultimapKVPair.compare byteCompare byteCompare [2] [3] = .error .assertionFailed ∧
    MultimapKVPair.compare byteCompare byteCompare [1] [2] ≠ .error .assertionFailed :=
  ⟨(comparator_assertion byteCompare byteCompare).1 [2] [3] 2 3 rfl rfl
     (Or.inl rfl) (Or.inr (Or.inl rfl)),
   (comparator_assertion byteCompare byteCompare).2 [1] [2] (Or.inl rfl)⟩

lemma byteCompare_eq_iff (x y : List Nat) : byteCompare x y = .eq ↔ x = y := by
  induction x generalizing y with
  | nil => cases y <;> simp [byteCompare]
  | cons a as ih =>
    cases y with
    | nil => simp [byteCompare]
    | cons b bs =>
      rcases Nat.lt_trichotomy a b with h | h | h
      · simp only [byteCompare, if_pos h]
        exact iff_of_false (by simp) (by intro he; injection he with h1 h2; omega)
      · subst h
        simp only [byteCompare, if_neg (Nat.lt_irrefl a)]
        rw [ih]
        simp
      · simp only [byteCompare, if_neg (by omega : ¬ a < b), if_pos h]
        exact iff_of_false (by simp) (by intro he; injection he with h1 h2; omega)

lemma byteCompare_symm (x y : List Nat) : byteCompare y x = (byteCompare x y).swap := by
  induction x generalizing y with
  | nil => cases y <;> simp [byteCompare, Ordering.swap]
  | cons a as ih =>
    cases y with
    | nil => simp [byteCompare, Ordering.swap]
    | cons b bs =>
      rcases Nat.lt_trichotomy a b with h | h | h
      · simp only [byteCompare, if_pos h, if_neg (by omega : ¬ b < a), Ordering.swap]
      · subst h
        simp only [byteCompare, if_neg (Nat.lt_irrefl a)]
        exact ih bs
      · simp only [byteCompare, if_pos h, if_neg (by omega : ¬ a < b), Ordering.swap]

lemma byteCompare_lt_trans (x y z : List Nat) (h1 : byteCompare x y = .lt)
    (h2 : byteCompare y z = .lt) : byteCompare x z = .lt := by
  induction x generalizing y z with
  | nil =>
    cases z with
    | nil => cases y <;> simp [byteCompare] at h2
    | cons c cs => simp [byteCompare]
  | cons a as ih =>
    cases y with
    | nil => simp [byteCompare] at h1
    | cons b bs =>
      cases z with
      | nil => simp [byteCompare] at h2
      | cons c cs =>
        rcases Nat.lt_trichotomy a b with hab | hab | hab
        · rcases Nat.lt_trichotomy b c with hbc | hbc | hbc
          · simp only [byteCompare, if_pos (by omega : a < c)]
          · subst hbc
            simp only [byteCompare, if_pos hab]
          · simp only [byteCompare, if_neg (by omega : ¬ b < c), if_pos hbc] at h2
            simp at h2
        · subst hab
          rcases Nat.lt_trichotomy a c with hac | hac | hac
          · simp only [byteCompare, if_pos hac]
          · subst hac
            simp only [byteCompare, if_neg (Nat.lt_irrefl a)] at h1 h2 ⊢
            exact ih bs cs h1 h2
          · simp only [byteCompare, if_neg (by omega : ¬ a < c), if_pos hac] at h2
            simp at h2
        · simp only [byteCompare, if_neg (by omega : ¬ a < b), if_pos hab] at h1
          simp at h1

lemma byteCompare_lawful : LawfulCmp byteCompare := by
  refine ⟨byteCompare_symm, byteCompare_lt_trans, ?_⟩
  intro x y z h
  rw [(byteCompare_eq_iff x y).mp h]

lemma LawfulCmp.eq_congr_right {cmp : List Nat → List Nat → Ordering}
    (L : LawfulCmp cmp) (x y z : List Nat) (h : cmp x y = .eq) :
    cmp z x = cmp z y := by
  calc cmp z x = (cmp x z).swap := L.symm x z
    _ = (cmp y z).swap := by rw [L.eq_congr x y z h]
    _ = cmp z y := (L.symm y z).symm

lemma compare_op_head_one (d : List Nat) (h : d.head? = some 1) :
    MultimapKVPairAccessor.compare_op d = some .KeyAndValue := by
  simp [MultimapKVPairAccessor.compare_op, h]

lemma except_map_swap_swap (x : Except ComparePanic Ordering) :
    (x.map Ordering.swap).map Ordering.swap = x := by
  cases x with
  | ok o => cases o <;> rfl
  | error c => rfl

lemma compare_both_pairs (Kcmp Vcmp : List Nat → List Nat → Ordering)
    (d1 d2 : List Nat)
    (h1 : MultimapKVPairAccessor.compare_op d1 = some .KeyAndValue)
    (h2 : MultimapKVPairAccessor.compare_op d2 = some .KeyAndValue) :
    MultimapKVPair.compare Kcmp Vcmp d1 d2 = comparePairQuery Kcmp Vcmp d1 d2 := by
  simp [MultimapKVPair.compare, h1, h2]

lemma compare_pair_first (Kcmp Vcmp : List Nat → List Nat → Ordering)
    (d1 d2 : List Nat) (op2 : MultimapKeyCompareOp)
    (h1 : MultimapKVPairAccessor.compare_op d1 = some .KeyAndValue)
    (h2 : MultimapKVPairAccessor.compare_op d2 = some op2) :
    MultimapKVPair.compare Kcmp Vcmp d1 d2 = comparePairQuery Kcmp Vcmp d1 d2 := by
  simp [MultimapKVPair.compare, h1, h2]

lemma compare_query_first (Kcmp Vcmp : List Nat → List Nat → Ordering)
    (d1 d2 : List Nat) (op1 : MultimapKeyCompareOp)
    (h1 : MultimapKVPairAccessor.compare_op d1 = some op1)
    (hop1 : op1 ≠ .KeyAndValue)
    (h2 : MultimapKVPairAccessor.compare_op d2 = some .KeyAndValue) :
    MultimapKVPair.compare Kcmp Vcmp d1 d2 =
      (comparePairQuery Kcmp Vcmp d2 d1).map Ordering.swap := by
  simp [MultimapKVPair.compare, h1, h2, hop1]

lemma cq_antisym (Kcmp Vcmp : List Nat → List Nat → Ordering)
    (Kl : LawfulCmp Kcmp) (Vl : LawfulCmp Vcmp) (d1 d2 : List Nat)
    (h1 : MultimapKVPairAccessor.compare_op d1 = some .KeyAndValue)
    (h2 : MultimapKVPairAccessor.compare_op d2 = some .KeyAndValue) :
    comparePairQuery Kcmp Vcmp d2 d1 =
      (comparePairQuery Kcmp Vcmp d1 d2).map Ordering.swap := by
  simp only [comparePairQuery, h1, h2]
  cases hka : MultimapKVPairAccessor.key_bytes d1 with
  | none =>
    cases hkb : MultimapKVPairAccessor.key_bytes d2 <;> simp [Except.map]
  | some k1 =>
    cases hkb : MultimapKVPairAccessor.key_bytes d2 with
    | none => simp [Except.map]
    | some k2 =>
      have hsw : Kcmp k2 k1 = (Kcmp k1 k2).swap := Kl.symm k1 k2
      cases hK : Kcmp k1 k2 with
      | lt => simp [hsw, hK, Except.map, Ordering.swap]
      | gt => simp [hsw, hK, Except.map, Ordering.swap]
      | eq =>
        simp only [hsw, hK, Ordering.swap]
        cases hv1 : MultimapKVPairAccessor.value_bytes d1 with
        | none =>
          cases hv2 : MultimapKVPairAccessor.value_bytes d2 <;> simp [Except.map]
        | some v1 =>
          cases hv2 : MultimapKVPairAccessor.value_bytes d2 with
          | none => simp [Except.map]
          | some v2 => simp [Except.map, Vl.symm v1 v2]

lemma compare_antisym (Kcmp Vcmp : List Nat → List Nat → Ordering)
    (Kl : LawfulCmp Kcmp) (Vl : LawfulCmp Vcmp) (d1 d2 : List Nat)
    (h : d1.head? = some 1 ∨ d2.head? = some 1) :
    MultimapKVPair.compare Kcmp Vcmp d2 d1 =
      (MultimapKVPair.compare Kcmp Vcmp d1 d2).map Ordering.swap := by
  cases hco1 : MultimapKVPairAccessor.compare_op d1 with
  | none =>
    have h2 : MultimapKVPairAccessor.compare_op d2 = some .KeyAndValue := by
      rcases h with h | h
      · rw [compare_op_head_one d1 h] at hco1
        exact absurd hco1 (by simp)
      · exact compare_op_head_one d2 h
    simp [MultimapKVPair.compare, hco1, h2, Except.map]
  | some op1 =>
    cases hco2 : MultimapKVPairAccessor.compare_op d2 with
    | none =>
      simp [MultimapKVPair.compare, hco1, hco2, Except.map]
    | some op2 =>
      by_cases hA : op1 = .KeyAndValue <;> by_cases hB : op2 = .KeyAndValue
      · subst hA
        subst hB
        rw [compare_both_pairs Kcmp Vcmp d2 d1 hco2 hco1,
          compare_both_pairs Kcmp Vcmp d1 d2 hco1 hco2]
        exact cq_antisym Kcmp Vcmp Kl Vl d1 d2 hco1 hco2
      · subst hA
        rw [compare_query_first Kcmp Vcmp d2 d1 op2 hco2 hB hco1,
          compare_pair_first Kcmp Vcmp d1 d2 op2 hco1 hco2]
      · subst hB
        rw [compare_pair_first Kcmp Vcmp d2 d1 op1 hco2 hco1,
          compare_query_first Kcmp Vcmp d1 d2 op1 hco1 hA hco2,
          except_map_swap_swap]
      · exfalso
        rcases h with h | h
        · rw [compare_op_head_one d1 h] at hco1
          exact hA (Option.some_inj.mp hco1).symm
        · rw [compare_op_head_one d2 h] at hco2
          exact hB (Option.some_inj.mp hco2).symm

lemma entryCmp_key_not_gt (Kcmp Vcmp : List Nat → List Nat → Ordering)
    (Kl : LawfulCmp Kcmp) (a b : MEntry)
    (dom : a.op = .KeyAndValue ∨ b.op = .KeyAndValue)
    (h : entryCmp Kcmp Vcmp a b = .lt) :
    Kcmp a.key b.key = .lt ∨ Kcmp a.key b.key = .eq := by
  cases hK : Kcmp a.key b.key
  · exact Or.inl rfl
  · exact Or.inr rfl
  · exfalso
    have hK2 : Kcmp b.key a.key = .lt := by
      rw [Kl.symm a.key b.key, hK]
      rfl
    cases ha : a.op <;> cases hb : b.op <;>
      simp_all [entryCmp, pairQueryCmp, Ordering.swap]

lemma entryCmp_lt_of_key_lt (Kcmp Vcmp : List Nat → List Nat → Ordering)
    (Kl : LawfulCmp Kcmp) (a b : MEntry)
    (dom : a.op = .KeyAndValue ∨ b.op = .KeyAndValue)
    (hK : Kcmp a.key b.key = .lt) :
    entryCmp Kcmp Vcmp a b = .lt := by
  have hK2 : Kcmp b.key a.key = .gt := by
    rw [Kl.symm a.key b.key, hK]
    rfl
  cases ha : a.op <;> cases hb : b.op <;>
    simp_all [entryCmp, pairQueryCmp, Ordering.swap]

lemma entryCmp_lt_eq_cases (Kcmp Vcmp : List Nat → List Nat → Ordering)
    (Kl : LawfulCmp Kcmp) (a b : MEntry)
    (dom : a.op = .KeyAndValue ∨ b.op = .KeyAndValue)
    (hK : Kcmp a.key b.key = .eq)
    (h : entryCmp Kcmp Vcmp a b = .lt) :
    (a.op = .KeyAndValue ∧ b.op = .KeyAndValue ∧ Vcmp a.val b.val = .lt) ∨
    (a.op = .KeyMinusEpsilon ∧ b.op = .KeyAndValue) ∨
    (a.op = .KeyAndValue ∧ b.op = .KeyPlusEpsilon) := by
  have hK2 : Kcmp b.key a.key = .eq := by
    rw [Kl.symm a.key b.key, hK]
    rfl
  cases ha : a.op <;> cases hb : b.op <;>
    simp_all [entryCmp, pairQueryCmp, Ordering.swap]

lemma entryCmp_lt_trans (Kcmp Vcmp : List Nat → List Nat → Ordering)
    (Kl : LawfulCmp Kcmp) (Vl : LawfulCmp Vcmp) (a b c : MEntry)
    (dab : a.op = .KeyAndValue ∨ b.op = .KeyAndValue)
    (dbc : b.op = .KeyAndValue ∨ c.op = .KeyAndValue)
    (dac : a.op = .KeyAndValue ∨ c.op = .KeyAndValue)
    (hab : entryCmp Kcmp Vcmp a b = .lt)
    (hbc : entryCmp Kcmp Vcmp b c = .lt) :
    entryCmp Kcmp Vcmp a c = .lt := by
  rcases entryCmp_key_not_gt Kcmp Vcmp Kl a b dab hab with hK1 | hK1
  · rcases entryCmp_key_not_gt Kcmp Vcmp Kl b c dbc hbc with hK2 | hK2
    · exact entryCmp_lt_of_key_lt Kcmp Vcmp Kl a c dac
        (Kl.lt_trans a.key b.key c.key hK1 hK2)
    · have hac : Kcmp a.key c.key = .lt := by
        rw [← Kl.eq_congr_right b.key c.key a.key hK2]
        exact hK1
      exact entryCmp_lt_of_key_lt Kcmp Vcmp Kl a c dac hac
  · rcases entryCmp_key_not_gt Kcmp Vcmp Kl b c dbc hbc with hK2 | hK2
    · have hac : Kcmp a.key c.key = .lt := by
        rw [Kl.eq_congr a.key b.key c.key hK1]
        exact hK2
      exact entryCmp_lt_of_key_lt Kcmp Vcmp Kl a c dac hac
    · have hKac : Kcmp a.key c.key = .eq := by
        rw [Kl.eq_congr a.key b.key c.key hK1]
        exact hK2
      have hKca : Kcmp c.key a.key = .eq := by
        rw [Kl.symm a.key c.key, hKac]
        rfl
      rcases entryCmp_lt_eq_cases Kcmp Vcmp Kl a b dab hK1 hab with
        ⟨haKV, hbKV, hV1⟩ | ⟨haM, hbKV⟩ | ⟨haKV, hbP⟩
      · rcases entryCmp_lt_eq_cases Kcmp Vcmp Kl b c dbc hK2 hbc with
          ⟨_, hcKV, hV2⟩ | ⟨hbM, _⟩ | ⟨_, hcP⟩
        · have hVac : Vcmp a.val c.val = .lt :=
            Vl.lt_trans a.val b.val c.val hV1 hV2
          simp [entryCmp, pairQueryCmp, haKV, hcKV, hKac, hVac]
        · rw [hbKV] at hbM
          exact absurd hbM (by simp)
        · simp [entryCmp, pairQueryCmp, haKV, hcP, hKac]
      · rcases entryCmp_lt_eq_cases Kcmp Vcmp Kl b c dbc hK2 hbc with
          ⟨_, hcKV, hV2⟩ | ⟨hbM, _⟩ | ⟨_, hcP⟩
        · simp [entryCmp, pairQueryCmp, haM, hcKV, hKca, Ordering.swap]
        · rw [hbKV] at hbM
          exact absurd hbM (by simp)
        · exfalso
          rcases dac with h | h
          · rw [haM] at h
            exact absurd h (by simp)
          · rw [hcP] at h
            exact absurd h (by simp)
      · rcases entryCmp_lt_eq_cases Kcmp Vcmp Kl b c dbc hK2 hbc with
          ⟨hbKV, _, _⟩ | ⟨hbM, _⟩ | ⟨hbKV, _⟩
        · rw [hbP] at hbKV
          exact absurd hbKV (by simp)
        · rw [hbP] at hbM
          exact absurd hbM (by simp)
        · rw [hbP] at hbKV
          exact absurd hbKV (by simp)

/-- C3: over the domain where at least one operand is a Pair, the comparator is
antisymmetric (comparing swapped operands yields the reversed result, panics
included) and transitive on well-formed encoded entries, assuming the key and
value comparators are total orders. -/
theorem comparator_antisym_trans (Kcmp Vcmp : List Nat → List Nat → Ordering)
    (Kl : LawfulCmp Kcmp) (Vl : LawfulCmp Vcmp) :
    (∀ d1 d2 : List Nat, d1.head? = some 1 ∨ d2.head? = some 1 →
      MultimapKVPair.compare Kcmp Vcmp d2 d1 =
        (MultimapKVPair.compare Kcmp Vcmp d1 d2).map Ordering.swap) ∧
    (∀ a b c : MEntry,
      a.key.length < 4294967296 → b.key.length < 4294967296 →
      c.key.length < 4294967296 →
      (a.op = .KeyAndValue ∨ b.op = .KeyAndValue) →
      (b.op = .KeyAndValue ∨ c.op = .KeyAndValue) →
      (a.op = .KeyAndValue ∨ c.op = .KeyAndValue) →
      MultimapKVPair.compare Kcmp Vcmp (encodeEntry a) (encodeEntry b) = .ok .lt →
      MultimapKVPair.compare Kcmp Vcmp (encodeEntry b) (encodeEntry c) = .ok .lt →
      MultimapKVPair.compare Kcmp Vcmp (encodeEntry a) (encodeEntry c) = .ok .lt) := by
  constructor
  · exact fun d1 d2 h => compare_antisym Kcmp Vcmp Kl Vl d1 d2 h
  · intro a b c ha hb hc dab dbc dac hab hbc
    rw [compare_encode Kcmp Vcmp a b ha hb dab] at hab
    rw [compare_encode Kcmp Vcmp b c hb hc dbc] at hbc
    rw [compare_encode Kcmp Vcmp a c ha hc dac]
    have hab2 : entryCmp Kcmp Vcmp a b = .lt := by
      injection hab
    have hbc2 : entryCmp Kcmp Vcmp b c = .lt := by
      injection hbc
    rw [entryCmp_lt_trans Kcmp Vcmp Kl Vl a b c dab dbc dac hab2 hbc2]

theorem comparator_antisym_trans_witness :
    LawfulCmp byteCompare ∧
    MultimapKVPair.compare byteCompare byteCompare
        (make_serialized_key_with_op [4] .KeyMinusEpsilon)
        (MultimapKVPair.new_pair [4] [1]) =
      (MultimapKVPair.compare byteCompare byteCompare
        (MultimapKVPair.new_pair [4] [1])
        (make_serialized_key_with_op [4] .KeyMinusEpsilon)).map Ordering.swap ∧
    MultimapKVPair.compare byteCompare byteCompare
        (encodeEntry ⟨.KeyAndValue, [0], []⟩) (encodeEntry ⟨.KeyAndValue, [2], []⟩) =
      .ok .lt :=
  ⟨byteCompare_lawful,
   (comparator_antisym_trans byteCompare byteCompare byteCompare_lawful
     byteCompare_lawful).1 (MultimapKVPair.new_pair [4] [1])
     (make_serialized_key_with_op [4] .KeyMinusEpsilon) (Or.inl rfl),
   (comparator_antisym_trans byteCompare byteCompare byteCompare_lawful
     byteCompare_lawful).2 ⟨.KeyAndValue, [0], []⟩ ⟨.KeyAndValue, [1], []⟩
     ⟨.KeyAndValue, [2], []⟩ (by decide) (by decide) (by decide)
     (Or.inl rfl) (Or.inl rfl) (Or.inl rfl) (by rfl) (by rfl)⟩

theorem range_builder_bounds_witness :
    (make_inclusive_query_range (.Included [7]) .Unbounded).1 =
      some (make_serialized_key_with_op [7] .KeyMinusEpsilon) ∧
    (MultimapTable.rangeBounds (.Included [7]) .Unbounded).1 ≠ .Excluded [9] :=
  ⟨(range_builder_bounds [7]).1 .Unbounded,
   ((range_builder_bounds [7]).2.2.2.2.2.2.2.2 (.Included [7]) .Unbounded [9]).1⟩

lemma compare_self_eq (Kcmp Vcmp : List Nat → List Nat → Ordering)
    (kb vb : List Nat) (hkb : kb.length < 4294967296)
    (hK : Kcmp kb kb = .eq) (hV : Vcmp vb vb = .eq) :
    MultimapKVPair.compare Kcmp Vcmp (MultimapKVPair.new_pair kb vb)
      (MultimapKVPair.new_pair kb vb) = .ok .eq := by
  rw [pair_pair_lexicographic Kcmp Vcmp kb vb kb vb hkb hkb, hK, hV]

lemma btreeInsert_again (cmp : List Nat → List Nat → Except ComparePanic Ordering)
    (key : List Nat) (hself : cmp key key = .ok .eq) :
    ∀ t t1 : List (List Nat), ∀ wp : Bool,
      btreeInsert cmp key t = some (t1, wp) →
      btreeInsert cmp key t1 = some (t1, true) := by
  intro t
  induction t with
  | nil =>
    intro t1 wp h
    simp only [btreeInsert] at h
    obtain ⟨h1, h2⟩ := Prod.mk.injEq _ _ _ _ ▸ Option.some_inj.mp h
    subst h1
    simp [btreeInsert, hself]
  | cons e rest ih =>
    intro t1 wp h
    simp only [btreeInsert] at h
    cases hc : cmp e key with
    | error c => rw [hc] at h; exact absurd h (by simp)
    | ok o =>
      rw [hc] at h
      cases o with
      | lt =>
        cases hrec : btreeInsert cmp key rest with
        | none => rw [hrec] at h; exact absurd h (by simp)
        | some r =>
          rw [hrec] at h
          obtain ⟨hr1, hr2⟩ := Prod.mk.injEq _ _ _ _ ▸ Option.some_inj.mp h
          have hstep := ih r.1 r.2 (by rw [hrec])
          subst hr1
          simp only [btreeInsert, hc, hstep]
      | eq =>
        obtain ⟨hr1, hr2⟩ := Prod.mk.injEq _ _ _ _ ▸ Option.some_inj.mp h
        subst hr1
        simp [btreeInsert, hself]
      | gt =>
        obtain ⟨hr1, hr2⟩ := Prod.mk.injEq _ _ _ _ ▸ Option.some_inj.mp h
        subst hr1
        simp [btreeInsert, hself]

lemma btreeInsert_count (cmp : List Nat → List Nat → Except ComparePanic Ordering)
    (key : List Nat) (hself : cmp key key = .ok .eq) :
    ∀ t t1 : List (List Nat), ∀ wp : Bool,
      t.Pairwise (fun x y => cmp x y = .ok .lt) →
      btreeInsert cmp key t = some (t1, wp) →
      t1.count key = 1 := by
  intro t
  induction t with
  | nil =>
    intro t1 wp hp h
    simp only [btreeInsert] at h
    obtain ⟨h1, h2⟩ := Prod.mk.injEq _ _ _ _ ▸ Option.some_inj.mp h
    subst h1
    simp
  | cons e rest ih =>
    intro t1 wp hp h
    obtain ⟨hhead, hrest⟩ := List.pairwise_cons.mp hp
    simp only [btreeInsert] at h
    cases hc : cmp e key with
    | error c => rw [hc] at h; exact absurd h (by simp)
    | ok o =>
      rw [hc] at h
      cases o with
      | lt =>
        cases hrec : btreeInsert cmp key rest with
        | none => rw [hrec] at h; exact absurd h (by simp)
        | some r =>
          rw [hrec] at h
          obtain ⟨hr1, hr2⟩ := Prod.mk.injEq _ _ _ _ ▸ Option.some_inj.mp h
          subst hr1
          have hcount := ih r.1 r.2 hrest (by rw [hrec])
          have hne : e ≠ key := by
            intro he
            rw [he, hself] at hc
            exact absurd (Except.ok.inj hc) (by simp)
          rw [List.count_cons, hcount]
          simp [hne]
      | eq =>
        obtain ⟨hr1, hr2⟩ := Prod.mk.injEq _ _ _ _ ▸ Option.some_inj.mp h
        subst hr1
        have hzero : rest.count key = 0 := by
          rw [List.count_eq_zero]
          intro hmem
          have := hhead key hmem
          rw [hc] at this
          exact absurd (Except.ok.inj this) (by simp)
        rw [List.count_cons, hzero]
        simp
      | gt =>
        obtain ⟨hr1, hr2⟩ := Prod.mk.injEq _ _ _ _ ▸ Option.some_inj.mp h
        subst hr1
        have hne : e ≠ key := by
          intro he
          rw [he, hself] at hc
          exact absurd (Except.ok.inj hc) (by simp)
        have hzero : rest.count key = 0 := by
          rw [List.count_eq_zero]
          intro hmem
          have := hhead key hmem
          rw [hc] at this
          exact absurd (Except.ok.inj this) (by simp)
        rw [List.count_cons, List.count_cons, hzero]
        simp [hne]

/-- C8: once `insert(k, v)` has succeeded, a second identical insert returns
`was_present = true`, leaves the tree unchanged (hence exactly one physical
Pair for (k, v) and an unchanged `len()`). -/
theorem insert_idempotent (Kcmp Vcmp : List Nat → List Nat → Ordering)
    (kb vb : List Nat) (t t1 : List (List Nat)) (wp1 : Bool)
    (hkb : kb.length < 4294967296)
    (hK : Kcmp kb kb = .eq) (hV : Vcmp vb vb = .eq)
    (hsorted : t.Pairwise
      (fun x y => MultimapKVPair.compare Kcmp Vcmp x y = .ok .lt))
    (h1 : MultimapTable.insert Kcmp Vcmp kb vb t = some (t1, wp1)) :
    MultimapTable.insert Kcmp Vcmp kb vb t1 = some (t1, true) ∧
    t1.count (MultimapKVPair.new_pair kb vb) = 1 ∧
    (∀ t2 wp2, MultimapTable.insert Kcmp Vcmp kb vb t1 = some (t2, wp2) →
      MultimapTable.len t2 = MultimapTable.len t1) := by
  have hself := compare_self_eq Kcmp Vcmp kb vb hkb hK hV
  refine ⟨?_, ?_, ?_⟩
  · exact btreeInsert_again (MultimapKVPair.compare Kcmp Vcmp)
      (MultimapKVPair.new_pair kb vb) hself t t1 wp1 h1
  · exact btreeInsert_count (MultimapKVPair.compare Kcmp Vcmp)
      (MultimapKVPair.new_pair kb vb) hself t t1 wp1 hsorted h1
  · intro t2 wp2 h2
    have hagain := btreeInsert_again (MultimapKVPair.compare Kcmp Vcmp)
      (MultimapKVPair.new_pair kb vb) hself t t1 wp1 h1
    rw [MultimapTable.insert] at h2
    rw [hagain] at h2
    obtain ⟨hr1, hr2⟩ := Prod.mk.injEq _ _ _ _ ▸ Option.some_inj.mp h2
    rw [← hr1]

theorem insert_idempotent_witness :
    byteCompare [1] [1] = .eq ∧ byteCompare [2] [2] = .eq ∧
    MultimapTable.insert byteCompare byteCompare [1] [2] [] =
      some ([MultimapKVPair.new_pair [1] [2]], false) ∧
    (MultimapTable.insert byteCompare byteCompare [1] [2]
        [MultimapKVPair.new_pair [1] [2]] =
      some ([MultimapKVPair.new_pair [1] [2]], true) ∧
     [MultimapKVPair.new_pair [1] [2]].count (MultimapKVPair.new_pair [1] [2]) = 1 ∧
     (∀ t2 wp2, MultimapTable.insert byteCompare byteCompare [1] [2]
          [MultimapKVPair.new_pair [1] [2]] = some (t2, wp2) →
        MultimapTable.len t2 = MultimapTable.len [MultimapKVPair.new_pair [1] [2]])) :=
  ⟨by decide, by decide, by rfl,
   insert_idempotent byteCompare byteCompare [1] [2] [] [MultimapKVPair.new_pair [1] [2]]
     false (by decide) (by decide) (by decide) List.Pairwise.nil (by rfl)⟩

lemma btreeRemoveFirst_no_match (cmp : List Nat → List Nat → Except ComparePanic Ordering)
    (q : List Nat) :
    ∀ t : List (List Nat),
      (∀ e ∈ t, ∃ o, cmp e q = .ok o ∧ o ≠ .eq) →
      btreeRemoveFirst cmp q t = some (t, false) := by
  intro t
  induction t with
  | nil => intro _; rfl
  | cons e rest ih =>
    intro hall
    obtain ⟨o, ho, hne⟩ := hall e (by simp)
    have hrec := ih (fun x hx => hall x (by simp [hx]))
    cases o <;> simp_all [btreeRemoveFirst]

lemma btreeRemoveFirst_found (cmp : List Nat → List Nat → Except ComparePanic Ordering)
    (q : List Nat) :
    ∀ P m rest,
      (∀ e ∈ P, ∃ o, cmp e q = .ok o ∧ o ≠ .eq) →
      cmp m q = .ok .eq →
      btreeRemoveFirst cmp q (P ++ m :: rest) = some (P ++ rest, true) := by
  intro P
  induction P with
  | nil =>
    intro m rest _ hm
    simp [btreeRemoveFirst, hm]
  | cons e P1 ih =>
    intro m rest hP hm
    obtain ⟨o, ho, hne⟩ := hP e (by simp)
    have hrec := ih m rest (fun x hx => hP x (by simp [hx])) hm
    cases o <;> simp_all [btreeRemoveFirst]

lemma find_first_match (cmp : List Nat → List Nat → Except ComparePanic Ordering)
    (q : List Nat) :
    ∀ t : List (List Nat),
      (∀ e ∈ t, ∃ o, cmp e q = .ok o) →
      (∀ e ∈ t, ∃ o, cmp e q = .ok o ∧ o ≠ .eq) ∨
      (∃ P m rest, t = P ++ m :: rest ∧
        (∀ e ∈ P, ∃ o, cmp e q = .ok o ∧ o ≠ .eq) ∧ cmp m q = .ok .eq) := by
  intro t
  induction t with
  | nil => intro _; left; simp
  | cons e rest ih =>
    intro hall
    obtain ⟨o, ho⟩ := hall e (by simp)
    by_cases heq : o = .eq
    · subst heq
      exact Or.inr ⟨[], e, rest, by simp, by simp, ho⟩
    · rcases ih (fun x hx => hall x (by simp [hx])) with hno | ⟨P, m, r2, hteq, hP, hm⟩
      · left
        intro x hx
        rcases List.mem_cons.mp hx with rfl | hx2
        · exact ⟨o, ho, heq⟩
        · exact hno x hx2
      · right
        refine ⟨e :: P, m, r2, by simp [hteq], ?_, hm⟩
        intro x hx
        rcases List.mem_cons.mp hx with rfl | hx2
        · exact ⟨o, ho, heq⟩
        · exact hP x hx2

lemma isEqOk_false_of_ne (cmp : List Nat → List Nat → Except ComparePanic Ordering)
    (q e : List Nat) (o : Ordering) (ho : cmp e q = .ok o) (hne : o ≠ .eq) :
    isEqOk (cmp e q) = false := by
  rw [ho]
  cases o <;> simp_all [isEqOk]

lemma removeLoop_filter (cmp : List Nat → List Nat → Except ComparePanic Ordering)
    (q : List Nat) :
    ∀ n : Nat, ∀ t : List (List Nat), t.length ≤ n →
      (∀ e ∈ t, ∃ o, cmp e q = .ok o) →
      removeLoop cmp q (n + 1) t =
        some (t.filter (fun e => !(isEqOk (cmp e q)))) := by
  intro n
  induction n with
  | zero =>
    intro t hlen _
    have ht : t = [] := List.length_eq_zero.mp (Nat.le_zero.mp hlen)
    subst ht
    rfl
  | succ n ih =>
    intro t hlen hall
    rcases find_first_match cmp q t hall with hno | ⟨P, m, rest, hteq, hP, hm⟩
    · have hbrf := btreeRemoveFirst_no_match cmp q t hno
      have hfilter : t.filter (fun e => !(isEqOk (cmp e q))) = t := by
        apply List.filter_eq_self.mpr
        intro e he
        obtain ⟨o, ho, hne⟩ := hno e he
        simp [isEqOk_false_of_ne cmp q e o ho hne]
      simp only [removeLoop, hbrf]
      rw [hfilter]
    · subst hteq
      have hbrf := btreeRemoveFirst_found cmp q P m rest hP hm
      have hlen2 : (P ++ rest).length ≤ n := by
        simp only [List.length_append, List.length_cons] at hlen ⊢
        omega
      have hall2 : ∀ e ∈ P ++ rest, ∃ o, cmp e q = .ok o := by
        intro e he
        apply hall
        rcases List.mem_append.mp he with h | h
        · exact List.mem_append.mpr (Or.inl h)
        · exact List.mem_append.mpr (Or.inr (by simp [h]))
      have hstep := ih (P ++ rest) hlen2 hall2
      have hred : removeLoop cmp q (n + 1 + 1) (P ++ m :: rest) =
          removeLoop cmp q (n + 1) (P ++ rest) := by
        simp only [removeLoop, hbrf]
      rw [hred, hstep]
      have hmf : isEqOk (cmp m q) = true := by simp [hm, isEqOk]
      simp [List.filter_append, hmf]

lemma rangeScan_filter (cmp : List Nat → List Nat → Except ComparePanic Ordering)
    (lo hi : List Nat) :
    ∀ t : List (List Nat),
      (∀ e ∈ t, (∃ o, cmp e lo = .ok o) ∧ (∃ o, cmp e hi = .ok o)) →
      rangeScan cmp lo hi t =
        some (t.filter (fun e => inRangeOk (cmp e lo) (cmp e hi))) := by
  intro t
  induction t with
  | nil => intro _; rfl
  | cons e rest ih =>
    intro hall
    obtain ⟨⟨o1, ho1⟩, ⟨o2, ho2⟩⟩ := hall e (by simp)
    have hrec := ih (fun x hx => hall x (by simp [hx]))
    simp only [rangeScan, ho1, ho2, hrec, List.filter_cons]
    by_cases hin : o1 ≠ Ordering.lt ∧ o2 ≠ Ordering.gt
    · simp [inRangeOk, ho1, ho2, hin]
    · simp [inRangeOk, ho1, ho2, hin]

lemma decodeValues_spec :
    ∀ l : List (List Nat),
      (∀ e ∈ l, ∃ v, MultimapKVPairAccessor.value_bytes e = some v) →
      ∃ vs, decodeValues l = some vs ∧
        ∀ v, v ∈ vs ↔ ∃ e ∈ l, MultimapKVPairAccessor.value_bytes e = some v := by
  intro l
  induction l with
  | nil => intro _; exact ⟨[], rfl, by simp⟩
  | cons e rest ih =>
    intro hall
    obtain ⟨v, hv⟩ := hall e (by simp)
    obtain ⟨vs, hvs, hmem⟩ := ih (fun x hx => hall x (by simp [hx]))
    refine ⟨v :: vs, ?_, ?_⟩
    · simp only [decodeValues, hv, hvs]
    · intro w
      simp only [List.mem_cons]
      constructor
      · rintro (rfl | hw)
        · exact ⟨e, by simp, hv⟩
        · obtain ⟨x, hx, hxv⟩ := (hmem w).mp hw
          exact ⟨x, by simp [hx], hxv⟩
      · rintro ⟨x, hx, hxv⟩
        rcases hx with rfl | hx2
        · left
          rw [hv] at hxv
          exact (Option.some_inj.mp hxv).symm
        · right
          exact (hmem w).mpr ⟨x, hx2, hxv⟩

lemma new_pair_inj (k1 v1 k2 v2 : List Nat)
    (h1 : k1.length < 4294967296) (h2 : k2.length < 4294967296)
    (h : MultimapKVPair.new_pair k1 v1 = MultimapKVPair.new_pair k2 v2) :
    k1 = k2 ∧ v1 = v2 := by
  have hk1 := key_bytes_encode ⟨.KeyAndValue, k1, v1⟩ h1
  have hk2 := key_bytes_encode ⟨.KeyAndValue, k2, v2⟩ h2
  have hv1 := value_bytes_encode ⟨.KeyAndValue, k1, v1⟩ h1
  have hv2 := value_bytes_encode ⟨.KeyAndValue, k2, v2⟩ h2
  rw [← new_pair_encode] at hk1 hk2 hv1 hv2
  rw [h] at hk1 hv1
  rw [hk2] at hk1
  rw [hv2] at hv1
  exact ⟨(Option.some_inj.mp hk1).symm, (Option.some_inj.mp hv1).symm⟩

lemma cmp_pair_keyonly (Kcmp Vcmp : List Nat → List Nat → Ordering)
    (ke ve kb : List Nat) (hke : ke.length < 4294967296)
    (hkb : kb.length < 4294967296) :
    MultimapKVPair.compare Kcmp Vcmp (MultimapKVPair.new_pair ke ve)
      (make_serialized_key_with_op kb .KeyOnly) = .ok (Kcmp ke kb) := by
  rw [compare_pair_sentinel Kcmp Vcmp ke ve kb .KeyOnly hke hkb]
  rfl

lemma cmp_pair_minus (Kcmp Vcmp : List Nat → List Nat → Ordering)
    (ke ve kb : List Nat) (hke : ke.length < 4294967296)
    (hkb : kb.length < 4294967296) :
    MultimapKVPair.compare Kcmp Vcmp (MultimapKVPair.new_pair ke ve)
      (make_serialized_key_with_op kb .KeyMinusEpsilon) =
      .ok (match Kcmp ke kb with | .eq => .gt | o => o) := by
  rw [compare_pair_sentinel Kcmp Vcmp ke ve kb .KeyMinusEpsilon hke hkb]
  rfl

lemma cmp_pair_plus (Kcmp Vcmp : List Nat → List Nat → Ordering)
    (ke ve kb : List Nat) (hke : ke.length < 4294967296)
    (hkb : kb.length < 4294967296) :
    MultimapKVPair.compare Kcmp Vcmp (MultimapKVPair.new_pair ke ve)
      (make_serialized_key_with_op kb .KeyPlusEpsilon) =
      .ok (match Kcmp ke kb with | .eq => .lt | o => o) := by
  rw [compare_pair_sentinel Kcmp Vcmp ke ve kb .KeyPlusEpsilon hke hkb]
  rfl

/-- C9: `remove_all(k)` succeeds; its iterator enumerates exactly the set of
values v with a pair (k, v) present in the tree immediately before the call
(read from the snapshot captured before any removal), and `get(k)` on the
mutated tree afterwards yields no values. -/
theorem remove_all_enumerates (Kcmp Vcmp : List Nat → List Nat → Ordering)
    (kb : List Nat) (t : List (List Nat))
    (hkb : kb.length < 4294967296)
    (hwf : ∀ e ∈ t, ∃ ke ve, ke.length < 4294967296 ∧
      e = MultimapKVPair.new_pair ke ve) :
    ∃ tAfter vals,
      MultimapTable.remove_all Kcmp Vcmp kb t = some (tAfter, vals) ∧
      (∀ vb, vb ∈ vals ↔
        ∃ ke, ke.length < 4294967296 ∧
          MultimapKVPair.new_pair ke vb ∈ t ∧ Kcmp ke kb = .eq) ∧
      MultimapTable.get Kcmp Vcmp kb tAfter = some [] := by
  have hallq : ∀ e ∈ t, ∃ o, MultimapKVPair.compare Kcmp Vcmp e
      (make_serialized_key_with_op kb .KeyOnly) = .ok o := by
    intro e he
    obtain ⟨ke, ve, hke, rfl⟩ := hwf e he
    exact ⟨Kcmp ke kb, cmp_pair_keyonly Kcmp Vcmp ke ve kb hke hkb⟩
  have hloop := removeLoop_filter (MultimapKVPair.compare Kcmp Vcmp)
    (make_serialized_key_with_op kb .KeyOnly) t.length t (le_refl _) hallq
  have hallr : ∀ e ∈ t,
      (∃ o, MultimapKVPair.compare Kcmp Vcmp e
        (make_serialized_key_with_op kb .KeyMinusEpsilon) = .ok o) ∧
      (∃ o, MultimapKVPair.compare Kcmp Vcmp e
        (make_serialized_key_with_op kb .KeyPlusEpsilon) = .ok o) := by
    intro e he
    obtain ⟨ke, ve, hke, rfl⟩ := hwf e he
    exact ⟨⟨_, cmp_pair_minus Kcmp Vcmp ke ve kb hke hkb⟩,
      ⟨_, cmp_pair_plus Kcmp Vcmp ke ve kb hke hkb⟩⟩
  have hscan := rangeScan_filter (MultimapKVPair.compare Kcmp Vcmp)
    (make_serialized_key_with_op kb .KeyMinusEpsilon)
    (make_serialized_key_with_op kb .KeyPlusEpsilon) t hallr
  have hvdef : ∀ e ∈ t.filter (fun e => inRangeOk
      (MultimapKVPair.compare Kcmp Vcmp e
        (make_serialized_key_with_op kb .KeyMinusEpsilon))
      (MultimapKVPair.compare Kcmp Vcmp e
        (make_serialized_key_with_op kb .KeyPlusEpsilon))),
      ∃ v, MultimapKVPairAccessor.value_bytes e = some v := by
    intro e he
    obtain ⟨ke, ve, hke, rfl⟩ := hwf e (List.mem_filter.mp he).1
    refine ⟨ve, ?_⟩
    rw [new_pair_encode]
    exact value_bytes_encode _ hke
  obtain ⟨vs, hdv, hmemvs⟩ := decodeValues_spec _ hvdef
  refine ⟨t.filter (fun e => !(isEqOk (MultimapKVPair.compare Kcmp Vcmp e
      (make_serialized_key_with_op kb .KeyOnly)))), vs, ?_, ?_, ?_⟩
  · simp only [MultimapTable.remove_all, hloop, hscan, hdv]
  · intro vb
    rw [hmemvs vb]
    constructor
    · rintro ⟨e, he, hev⟩
      have hmf := List.mem_filter.mp he
      obtain ⟨ke, ve, hke, rfl⟩ := hwf e hmf.1
      have hvb : ve = vb := by
        have hv := value_bytes_encode ⟨.KeyAndValue, ke, ve⟩ hke
        rw [← new_pair_encode] at hv
        rw [hv] at hev
        exact Option.some_inj.mp hev
      subst hvb
      have hg : inRangeOk
          (MultimapKVPair.compare Kcmp Vcmp (MultimapKVPair.new_pair ke ve)
            (make_serialized_key_with_op kb .KeyMinusEpsilon))
          (MultimapKVPair.compare Kcmp Vcmp (MultimapKVPair.new_pair ke ve)
            (make_serialized_key_with_op kb .KeyPlusEpsilon)) = true := hmf.2
      rw [cmp_pair_minus Kcmp Vcmp ke ve kb hke hkb,
        cmp_pair_plus Kcmp Vcmp ke ve kb hke hkb] at hg
      have heq : Kcmp ke kb = .eq := by
        cases hK : Kcmp ke kb
        · rw [hK] at hg
          simp [inRangeOk] at hg
        · rfl
        · rw [hK] at hg
          simp [inRangeOk] at hg
      exact ⟨ke, hke, hmf.1, heq⟩
    · rintro ⟨ke, hke, hmem, heq⟩
      refine ⟨MultimapKVPair.new_pair ke vb, ?_, ?_⟩
      · apply List.mem_filter.mpr
        refine ⟨hmem, ?_⟩
        show inRangeOk
          (MultimapKVPair.compare Kcmp Vcmp (MultimapKVPair.new_pair ke vb)
            (make_serialized_key_with_op kb .KeyMinusEpsilon))
          (MultimapKVPair.compare Kcmp Vcmp (MultimapKVPair.new_pair ke vb)
            (make_serialized_key_with_op kb .KeyPlusEpsilon)) = true
        rw [cmp_pair_minus Kcmp Vcmp ke vb kb hke hkb,
          cmp_pair_plus Kcmp Vcmp ke vb kb hke hkb, heq]
        rfl
      · rw [new_pair_encode]
        exact value_bytes_encode _ hke
  · have hall2 : ∀ e ∈ t.filter (fun e => !(isEqOk (MultimapKVPair.compare Kcmp Vcmp e
        (make_serialized_key_with_op kb .KeyOnly)))),
        (∃ o, MultimapKVPair.compare Kcmp Vcmp e
          (make_serialized_key_with_op kb .KeyMinusEpsilon) = .ok o) ∧
        (∃ o, MultimapKVPair.compare Kcmp Vcmp e
          (make_serialized_key_with_op kb .KeyPlusEpsilon) = .ok o) :=
    fun e he => hallr e (List.mem_filter.mp he).1
    have hscan2 := rangeScan_filter (MultimapKVPair.compare Kcmp Vcmp)
      (make_serialized_key_with_op kb .KeyMinusEpsilon)
      (make_serialized_key_with_op kb .KeyPlusEpsilon) _ hall2
    have hempty : (t.filter (fun e => !(isEqOk (MultimapKVPair.compare Kcmp Vcmp e
        (make_serialized_key_with_op kb .KeyOnly))))).filter
        (fun e => inRangeOk
          (MultimapKVPair.compare Kcmp Vcmp e
            (make_serialized_key_with_op kb .KeyMinusEpsilon))
          (MultimapKVPair.compare Kcmp Vcmp e
            (make_serialized_key_with_op kb .KeyPlusEpsilon))) = [] := by
      rw [List.filter_eq_nil_iff]
      intro e he
      have hmf := List.mem_filter.mp he
      obtain ⟨ke, ve, hke, rfl⟩ := hwf e hmf.1
      have hf : (!(isEqOk (MultimapKVPair.compare Kcmp Vcmp
          (MultimapKVPair.new_pair ke ve)
          (make_serialized_key_with_op kb .KeyOnly)))) = true := hmf.2
      rw [cmp_pair_keyonly Kcmp Vcmp ke ve kb hke hkb] at hf
      have hne : Kcmp ke kb ≠ .eq := by
        intro heq
        rw [heq] at hf
        simp [isEqOk] at hf
      show ¬ (inRangeOk
        (MultimapKVPair.compare Kcmp Vcmp (MultimapKVPair.new_pair ke ve)
          (make_serialized_key_with_op kb .KeyMinusEpsilon))
        (MultimapKVPair.compare Kcmp Vcmp (MultimapKVPair.new_pair ke ve)
          (make_serialized_key_with_op kb .KeyPlusEpsilon)) = true)
      rw [cmp_pair_minus Kcmp Vcmp ke ve kb hke hkb,
        cmp_pair_plus Kcmp Vcmp ke ve kb hke hkb]
      cases hK : Kcmp ke kb
      · simp [inRangeOk]
      · exact absurd hK hne
      · simp [inRangeOk]
    simp only [MultimapTable.get, hscan2, hempty, decodeValues]

theorem remove_all_enumerates_witness :
    ([1] : List Nat).length < 4294967296 ∧
    ∃ tAfter vals,
      MultimapTable.remove_all byteCompare byteCompare [1]
        [MultimapKVPair.new_pair [1] [7]] = some (tAfter, vals) ∧
      (∀ vb, vb ∈ vals ↔
        ∃ ke, ke.length < 4294967296 ∧
          MultimapKVPair.new_pair ke vb ∈ [MultimapKVPair.new_pair [1] [7]] ∧
          byteCompare ke [1] = .eq) ∧
      MultimapTable.get byteCompare byteCompare [1] tAfter = some [] :=
  ⟨by decide,
   remove_all_enumerates byteCompare byteCompare [1]
     [MultimapKVPair.new_pair [1] [7]] (by decide)
     (by
       intro e he
       rw [List.mem_singleton] at he
       exact ⟨[1], [7], by decide, he⟩)⟩
